import Mathlib

/-! Overview.
Verification of the flat-converter core of the mp model transformation
pipeline.  The development shallowly embeds the relevant C++ functions
(`FlatConverter` from `constr_general.h`, `SolverApp::Run` from
`solver.h`, the `SOS_1or2_Constraint` constructor) as executable Lean
definitions and proves the documented properties about them.

Numeric values (C++ `double`) are modelled as rationals: the claims
under study only use ordering, equality, `max` and `min` of values.
-/

namespace MpVerify

/-- Numeric value type standing in for C++ `double`. -/
abbrev Val := ℚ

/-- The apostrophe character, kept out of string literals. -/
def quoteChar : Char := Char.ofNat 39

/-- The apostrophe as a one-character string. -/
def quoteStr : String := String.singleton quoteChar

/-- Association-list lookup mirroring `std::unordered_map::find` /
`std::map::find`: returns the mapped index of the first entry whose key
equals `k`, or `none`. -/
def assocLookup {κ : Type} [DecidableEq κ] : List (κ × Nat) → κ → Option Nat
  | [], _ => none
  | (k0, i) :: rest, k => if k0 = k then some i else assocLookup rest k

/-! Variable storage of the flat model (`FlatConverter` state).

State touched by `DoAddVar`, `MakeFixedVar`, `AddVar` and
`NarrowVarBounds` (`constr_general.h`).  Variables are identified by
their index; bounds and types are stored per index, and
`map_fixed_vars_` is the fixed-value cache `value -> variable id`. -/

/-- Variable type, `var::Type` in the source. -/
inductive VarType where
  | continuous
  | integer
deriving DecidableEq, Repr

/-- The variable-related state of `FlatConverter`/`BasicFlatModel`:
per-variable bounds and types plus the fixed-value cache
`map_fixed_vars_`. -/
structure FlatCvtState where
  var_lb : List Val
  var_ub : List Val
  var_type : List VarType
  map_fixed_vars : List (Val × Nat)
deriving DecidableEq, Repr

/-- Number of variables stored so far. -/
def FlatCvtState.num_vars (s : FlatCvtState) : Nat := s.var_type.length

/-- Stored lower bound of variable `v` (`GetModel().lb(var)`). -/
def FlatCvtState.lb (s : FlatCvtState) (v : Nat) : Val := s.var_lb.getD v 0

/-- Stored upper bound of variable `v` (`GetModel().ub(var)`). -/
def FlatCvtState.ub (s : FlatCvtState) (v : Nat) : Val := s.var_ub.getD v 0

/-- Operation `set_lb(var, x)` on the model. -/
def FlatCvtState.set_lb (s : FlatCvtState) (v : Nat) (x : Val) : FlatCvtState :=
  { s with var_lb := s.var_lb.set v x }

/-- Operation `set_ub(var, x)` on the model. -/
def FlatCvtState.set_ub (s : FlatCvtState) (v : Nat) (x : Val) : FlatCvtState :=
  { s with var_ub := s.var_ub.set v x }

/-- Embeds `FlatConverter::DoAddVar(lb, ub, type)`: appends a fresh variable
with the given bounds and type and returns its index.  In the source
the third parameter defaults to `var::CONTINUOUS`. -/
def DoAddVar (s : FlatCvtState) (lb ub : Val) (ty : VarType) : Nat × FlatCvtState :=
  (s.num_vars,
   { s with
      var_lb := s.var_lb ++ [lb]
      var_ub := s.var_ub ++ [ub]
      var_type := s.var_type ++ [ty] })

/-- Embeds `FlatConverter::MakeFixedVar(value)`: consult the fixed-value cache
`map_fixed_vars_` first; on a hit return the cached variable id, else
create a fresh variable via `DoAddVar(value, value)` (type defaulted to
`var::CONTINUOUS` in the source) and record it in the cache. -/
def MakeFixedVar (s : FlatCvtState) (value : Val) : Nat × FlatCvtState :=
  match assocLookup s.map_fixed_vars value with
  | some v => (v, s)
  | none =>
      let r := DoAddVar s value value VarType.continuous
      (r.1, { r.2 with map_fixed_vars := (value, r.1) :: r.2.map_fixed_vars })

/-- Embeds `FlatConverter::AddVar(lb, ub, type)`: a fresh variable for a
proper interval, otherwise route through the fixed-value cache
(discarding `type`). -/
def AddVar (s : FlatCvtState) (lb ub : Val) (ty : VarType) : Nat × FlatCvtState :=
  if lb ≠ ub then DoAddVar s lb ub ty
  else MakeFixedVar s lb

/-- Embeds `FlatConverter::NarrowVarBounds(var, lb, ub)`: store
`max(old lb, lb)` as the lower and `min(old ub, ub)` as the upper
bound, then raise `MP_INFEAS("empty variable domain")` when the stored
bounds have crossed.  The updated state is returned together with the
raised message, if any (the C++ exception propagates after the stores
have happened). -/
def NarrowVarBounds (s : FlatCvtState) (v : Nat) (lb ub : Val) :
    FlatCvtState × Option String :=
  let s1 := s.set_lb v (max (s.lb v) lb)
  let s2 := s1.set_ub v (min (s1.ub v) ub)
  if s2.lb v > s2.ub v then (s2, some "empty variable domain")
  else (s2, none)

/-! Constraint keeper with deduplication map.

State touched by `AddConstraintAndTryNoteResultVariable` and
`MapInsert__Impl` (`constr_general.h`). -/

/-- A constraint keeper for one (mapped) constraint type `C`: the
append-only pool of constraints, the deduplication map
`C -> index`, and the human-readable description returned by
`GetDescription()`. -/
structure Keeper (C : Type) where
  cons : List C
  cmap : List (C × Nat)
  descr : String

/-- Embeds `FlatConverter::MapInsert__Impl(con, i)`: `map.insert({con, i})`;
returns `false` (and leaves the map unchanged) when the map already
held an entry with a structurally equal key. -/
def MapInsertImpl {C : Type} [DecidableEq C] (k : Keeper C) (con : C) (i : Nat) :
    Bool × Keeper C :=
  match assocLookup k.cmap con with
  | some _ => (false, k)
  | none => (true, { k with cmap := (con, i) :: k.cmap })

/-- Embeds `FlatConverter::AddInitExpression(var, ci)`: resize `var_info_` to
at least `var+1` entries and record the constraint location for
`var`. -/
def AddInitExpressionL (vinfo : List (Option Nat)) (var ci : Nat) : List (Option Nat) :=
  (vinfo ++ List.replicate (var + 1 - vinfo.length) none).set var (some ci)

/-- Embeds `FlatConverter::AddConstraintAndTryNoteResultVariable(con)`:
append `con` to the keeper, note the result variable when
`GetResultVar() >= 0`, then `MapInsert` the stored constraint; when the
insertion reports a duplicate, raise
`"Trying to MapInsert() duplicated constraint: " + ck.GetDescription()`. -/
def AddConstraintAndTryNote {C : Type} [DecidableEq C] (getResVar : C → Int)
    (k : Keeper C) (vinfo : List (Option Nat)) (con : C) :
    Except String (Keeper C × List (Option Nat) × Nat) :=
  let resvar := getResVar con
  let i := k.cons.length
  let k1 : Keeper C := { k with cons := k.cons ++ [con] }
  let vinfo1 := if 0 ≤ resvar then AddInitExpressionL vinfo resvar.toNat i else vinfo
  match MapInsertImpl k1 con i with
  | (false, _) =>
      Except.error ("Trying to MapInsert() duplicated constraint: " ++ k1.descr)
  | (true, k2) => Except.ok (k2, vinfo1, i)

/-! The default `Convert` overload (missing conversion rule). -/

/-- The message of the default `FlatConverter::Convert(const Constraint&)`
overload, raised when a rejected constraint type has no installed
conversion. -/
def defaultConvertMessage (conType apiType : String) : String :=
  "Constraint type " ++ quoteStr ++ conType ++ quoteStr ++
    " is neither accepted by " ++ quoteStr ++ apiType ++ quoteStr ++
    ", not is conversion implemented"

/-- The default `Convert` overload: unconditionally `MP_RAISE` with
`defaultConvertMessage`. -/
def convertDefault (conType apiType : String) : Except String Unit :=
  Except.error (defaultConvertMessage conType apiType)

/-- Embeds how `FlatConverter::ConvertItems` wraps the conversion pass and turns a
`ConstraintConversionFailure` into `MP_RAISE(cff.message())`, so the
error of the default `Convert` overload aborts conversion with the same
message. -/
def convertItemsResult (r : Except String Unit) : Except String Unit :=
  match r with
  | Except.ok u => Except.ok u
  | Except.error m => Except.error m

/-! Context defaulting in `RunConversion`. -/

/-- Constraint context, `Context` in the source:
`{None, Positive, Negative, Mixed}`. -/
inductive Ctx where
  | ctxNone
  | ctxPos
  | ctxNeg
  | ctxMix
deriving DecidableEq, Repr

/-- The context-relevant part of a constraint seen by `RunConversion`:
whether its type uses context (`UsesContext()`) and its current
context. -/
structure CtxConstraint where
  uses_context : Bool
  ctx : Ctx
deriving DecidableEq, Repr

/-- The context a constraint has after the defaulting step at the top
of `FlatConverter::RunConversion(con, i)`: if the type uses context and
the context is still `None`, set it to `Mixed`; otherwise leave it. -/
def runConversionCtx (c : CtxConstraint) : Ctx :=
  if c.uses_context then
    if c.ctx = Ctx.ctxNone then Ctx.ctxMix else c.ctx
  else c.ctx

/-- Restatement of the specification sentence: a constraint whose type
does not use context, or whose context is already Positive, Negative or
Mixed, keeps its context; only (uses-context, `None`) becomes
`Mixed`. -/
def runConversionCtxSpec (c : CtxConstraint) : Ctx :=
  match c.ctx with
  | Ctx.ctxNone => if c.uses_context then Ctx.ctxMix else Ctx.ctxNone
  | Ctx.ctxPos => Ctx.ctxPos
  | Ctx.ctxNeg => Ctx.ctxNeg
  | Ctx.ctxMix => Ctx.ctxMix

/-! Affine / quadratic expressions and `Convert2Var`.

Modelled from the spec: the expression classes `AffineExpr` and
`QuadraticExpr` live in headers that are not part of the sources at
hand; their observers are modelled after the spec and glossary — an
affine expression is a list of (coefficient, variable) terms plus a
constant; it "is a variable" when it consists of a single term with
coefficient 1 and zero constant, "is constant" when it has no terms; a
quadratic expression additionally carries quadratic terms and "is
affine" when its quadratic part is empty. -/

/-- An affine expression: linear terms (coefficient, variable) plus a
constant term. -/
structure AffineExpr where
  terms : List (Val × Nat)
  constant_term : Val
deriving DecidableEq, Repr

/-- Modelled from the spec: `AffineExpr::is_constant()` — no linear
terms. -/
def AffineExpr.is_constant (e : AffineExpr) : Bool := e.terms.isEmpty

/-- Modelled from the spec: `AffineExpr::is_variable()` — a single term
with coefficient 1 and zero constant. -/
def AffineExpr.is_variable (e : AffineExpr) : Bool :=
  match e.terms with
  | [(c, _)] => decide (c = 1 ∧ e.constant_term = 0)
  | _ => false

/-- Modelled from the spec: `AffineExpr::get_representing_variable()` —
the variable of the single term. -/
def AffineExpr.get_representing_variable (e : AffineExpr) : Nat :=
  match e.terms with
  | (_, v) :: _ => v
  | [] => 0

/-- A quadratic expression: an affine part plus quadratic terms
(coefficient, variable, variable). -/
structure QuadraticExpr where
  aff : AffineExpr
  qterms : List (Val × Nat × Nat)
deriving DecidableEq, Repr

/-- Modelled from the spec: `QuadraticExpr::is_constant()`. -/
def QuadraticExpr.is_constant (e : QuadraticExpr) : Bool :=
  e.qterms.isEmpty && e.aff.is_constant

/-- Modelled from the spec: `QuadraticExpr::is_variable()`. -/
def QuadraticExpr.is_variable (e : QuadraticExpr) : Bool :=
  e.qterms.isEmpty && e.aff.is_variable

/-- Modelled from the spec: `QuadraticExpr::is_affine()` — the
quadratic part is empty. -/
def QuadraticExpr.is_affine (e : QuadraticExpr) : Bool := e.qterms.isEmpty

/-- Modelled from the spec: `QuadraticExpr::constant_term()`. -/
def QuadraticExpr.constant_term (e : QuadraticExpr) : Val := e.aff.constant_term

/-- Modelled from the spec: `QuadraticExpr::get_representing_variable()`. -/
def QuadraticExpr.get_representing_variable (e : QuadraticExpr) : Nat :=
  e.aff.get_representing_variable

/-- Modelled from the spec: `MoveOutAffineExpr` — extract the affine
part of a quadratic expression whose quadratic part is empty. -/
def MoveOutAffineExpr (e : QuadraticExpr) : AffineExpr := e.aff

/-- The observable outcome of `Convert2Var`: the existing variable, the
canonical fixed variable of a value, or the result variable assigned by
`AssignResultVar2Args` to a `LinearFunctionalConstraint` /
`QuadraticFunctionalConstraint` wrapping the expression. -/
inductive Convert2VarResult where
  | existingVar (v : Nat)
  | fixedVar (value : Val)
  | viaLinearFC (e : AffineExpr)
  | viaQuadraticFC (e : QuadraticExpr)
deriving DecidableEq, Repr

/-- Embeds `FlatConverter::Convert2Var(AffineExpr&&)`. -/
def convert2VarAffine (e : AffineExpr) : Convert2VarResult :=
  if e.is_variable then Convert2VarResult.existingVar e.get_representing_variable
  else if e.is_constant then Convert2VarResult.fixedVar e.constant_term
  else Convert2VarResult.viaLinearFC e

/-- Embeds `FlatConverter::Convert2Var(QuadraticExpr&&)`. -/
def convert2VarQuad (e : QuadraticExpr) : Convert2VarResult :=
  if e.is_variable then Convert2VarResult.existingVar e.get_representing_variable
  else if e.is_constant then Convert2VarResult.fixedVar e.constant_term
  else if e.is_affine then Convert2VarResult.viaLinearFC (MoveOutAffineExpr e)
  else Convert2VarResult.viaQuadraticFC e

/-- The case analysis of `Convert2Var` on an affine expression as the
spec words it: the existing variable for a single variable, a fixed
variable for a constant, otherwise a `LinearFunctionalConstraint`. -/
def convert2VarAffineSpec (e : AffineExpr) : Convert2VarResult :=
  match e.terms with
  | [] => Convert2VarResult.fixedVar e.constant_term
  | [(c, v)] =>
      if c = 1 ∧ e.constant_term = 0 then Convert2VarResult.existingVar v
      else Convert2VarResult.viaLinearFC e
  | _ => Convert2VarResult.viaLinearFC e

/-- The case analysis of `Convert2Var` on a quadratic expression as the
spec words it, including the case of an empty quadratic part going to a
`LinearFunctionalConstraint`. -/
def convert2VarQuadSpec (e : QuadraticExpr) : Convert2VarResult :=
  match e.qterms with
  | [] => convert2VarAffineSpec e.aff
  | _ => Convert2VarResult.viaQuadraticFC e

/-! Embedding of `SolverApp::Run`. -/

/-- The external circumstances of one `SolverApp::Run(argv)` call: the
filename returned by the command-line option processing (`none` when
option processing stopped before a stub was given), whether
`Solver::ParseOptions` succeeded, and the solution status the solver
later reports (infeasible, solved, ...). -/
structure RunInput where
  filename : Option String
  parseOptionsOk : Bool
  solveStatus : Int
deriving DecidableEq, Repr

/-- Embeds `SolverApp::Run`: exit code together with whether the run reached
the solve step (`solver_.Solve(builder, *sol_handler)`).  No filename:
return 0.  Failed `ParseOptions`: return 1.  Otherwise read the
problem, solve — the reported status is only handed to the solution
handler — and return 0. -/
def solverAppRun (inp : RunInput) : Nat × Bool :=
  match inp.filename with
  | none => (0, false)
  | some _ =>
      if inp.parseOptionsOk = false then (1, false)
      else (0, true)

/-! Embedding of `SOS_1or2_Constraint::sort`.

The constructor inserts the pairs `(w_[i], v_[i])` for
`i = size-1 .. 0` into a `std::map<double,int>` with
`MP_ASSERT_ALWAYS(..., "SOS2: weights not unique")` on every insertion,
then reads the map back in increasing key order.  A `std::map` is
modelled as a strictly key-sorted association list. -/

/-- One `std::map<double,int>::insert({k, x})` into a strictly
key-sorted list: `none` when the key is already present (the insertion
reports failure and the `MP_ASSERT_ALWAYS` aborts). -/
def mapInsertSorted (k : Val) (x : Nat) : List (Val × Nat) → Option (List (Val × Nat))
  | [] => some [(k, x)]
  | (k0, x0) :: rest =>
      if k < k0 then some ((k, x) :: (k0, x0) :: rest)
      else if k0 < k then (mapInsertSorted k x rest).map (fun r => (k0, x0) :: r)
      else none

/-- Insert a list of (weight, variable) pairs one by one; `none` as
soon as one insertion hits an existing key. -/
def sosInsertAll : List (Val × Nat) → List (Val × Nat) → Option (List (Val × Nat))
  | [], m => some m
  | p :: rest, m =>
      match mapInsertSorted p.1 p.2 m with
      | none => none
      | some m1 => sosInsertAll rest m1

/-- Embeds `SOS_1or2_Constraint::sort()` on the stored vectors `v_`, `w_`:
insert `(w_[i], v_[i])` for `i = size-1` down to `0` into the map, then
rebuild `v_` and `w_` from the map in increasing key order.  `none`
models the `MP_ASSERT_ALWAYS` abort on a duplicate weight. -/
def sosSort (v : List Nat) (w : List Val) : Option (List Nat × List Val) :=
  match sosInsertAll ((w.zip v).reverse) [] with
  | none => none
  | some m => some (m.map Prod.snd, m.map Prod.fst)

/-! The conversion loop (claim about rejected keepers).

Modelled from the spec: the per-keeper iteration code
(`ConstraintKeeper::ConvertAllConstraints`, `constr_keeper.h`) is not
among the sources at hand.  Following §4.1/§4.3 of the spec, each
constraint carries a type; a constraint whose type the ModelAPI accepts
is passed through, a rejected one is replaced by the output of its
rewrite rule; newly emitted constraints are iterated in turn; every
rewrite maps a rejected type to strictly more-accepted types, captured
by a rank function that strictly decreases on still-rejected outputs.
Constraints are represented by their type tag. -/

/-- Modelled from the spec: one pass of the conversion loop over the
current pool — accepted constraints are kept, each rejected one is
replaced by the constraints its rewrite rule emits. -/
def convertRound (acc : Nat → Bool) (cvt : Nat → List Nat) (l : List Nat) : List Nat :=
  l.flatMap (fun c => if acc c then [c] else cvt c)

/-- Modelled from the spec: the conversion loop keeps iterating over
newly emitted constraints; `n` passes suffice when every rejected
constraint sits at rank below `n`. -/
def convertLoop (acc : Nat → Bool) (cvt : Nat → List Nat) : Nat → List Nat → List Nat
  | 0, l => l
  | n + 1, l => convertLoop acc cvt n (convertRound acc cvt l)

/-- The content of keeper `K<t>`: the stored constraints of type `t`. -/
def keeperContent (t : Nat) (l : List Nat) : List Nat :=
  l.filter (fun c => c = t)

/-! Theorems. -/

/-- C7: `RunConversion(c, i)` sets the context of a context-using
constraint from `None` to `Mixed` before dispatching `Convert(c, i)`;
a constraint whose type does not use context, or whose context is
already Positive, Negative or Mixed, keeps its context unchanged. -/
theorem runConversion_context_defaulting (c : CtxConstraint) :
    runConversionCtx c = runConversionCtxSpec c := by
  rcases c with ⟨u, x⟩
  cases u <;> cases x <;> rfl

/-- C2: when no `Convert` overload is installed for a constraint type,
the dispatched default `Convert` raises, `ConvertItems` re-raises, and
the resulting error message contains both the constraint's static type
name and the ModelAPI's type name; conversion aborts (no `ok`
outcome). -/
theorem convert_default_error_names_types (conType apiType : String) :
    ∃ msg, convertItemsResult (convertDefault conType apiType) = Except.error msg ∧
      conType.data <:+: msg.data ∧ apiType.data <:+: msg.data := by
  refine ⟨defaultConvertMessage conType apiType, rfl, ?_, ?_⟩
  · exact ⟨("Constraint type " ++ quoteStr).data,
      (quoteStr ++ " is neither accepted by " ++ quoteStr ++ apiType ++ quoteStr ++
        ", not is conversion implemented").data,
      by simp [defaultConvertMessage]⟩
  · exact ⟨("Constraint type " ++ quoteStr ++ conType ++ quoteStr ++
        " is neither accepted by " ++ quoteStr).data,
      (quoteStr ++ ", not is conversion implemented").data,
      by simp [defaultConvertMessage]⟩

/-- C5: the fixed-value cache makes constants canonical: a second
`MakeFixedVar(value)` returns the very same variable id and leaves the
state untouched (no second variable is created), and
`AddVar(lb, ub, type)` with `lb == ub` routes through the same cache,
so repeated additions of the same constant are idempotent. -/
theorem makeFixedVar_canonical (s : FlatCvtState) (value : Val) (ty ty' : VarType) :
    MakeFixedVar (MakeFixedVar s value).2 value = MakeFixedVar s value ∧
    AddVar s value value ty = MakeFixedVar s value ∧
    AddVar (AddVar s value value ty).2 value value ty' = AddVar s value value ty := by
  have hroute : ∀ t, AddVar s value value t = MakeFixedVar s value := by
    intro t; simp [AddVar]
  have hidem : MakeFixedVar (MakeFixedVar s value).2 value = MakeFixedVar s value := by
    unfold MakeFixedVar
    cases h : assocLookup s.map_fixed_vars value with
    | some v => simp [h]
    | none =>
        simp only [h]
        simp [DoAddVar, assocLookup]
  refine ⟨hidem, hroute ty, ?_⟩
  rw [hroute ty]
  have : AddVar (MakeFixedVar s value).2 value value ty' =
      MakeFixedVar (MakeFixedVar s value).2 value := by simp [AddVar]
  rw [this, hidem]

/-- C10: `AddVar(lb, ub, type)` with `lb == ub` ignores the requested
type: it routes to `MakeFixedVar`, the canonical fixed variable is
created as a continuous variable (the defaulted `DoAddVar` type), and a
later equal-bounds request for the same value — even with a different
type — returns the same variable without changing the state. -/
theorem addVar_equal_bounds_ignores_type (s : FlatCvtState) (value : Val)
    (ty ty' : VarType)
    (hfresh : assocLookup s.map_fixed_vars value = none) :
    AddVar s value value ty = MakeFixedVar s value ∧
    (AddVar s value value ty).2.var_type.getD (AddVar s value value ty).1 VarType.integer
      = VarType.continuous ∧
    AddVar (AddVar s value value ty).2 value value ty' =
      ((AddVar s value value ty).1, (AddVar s value value ty).2) := by
  have hroute : ∀ (s0 : FlatCvtState) (t : VarType),
      AddVar s0 value value t = MakeFixedVar s0 value := by
    intro s0 t; simp [AddVar]
  have hmk : MakeFixedVar s value =
      (s.num_vars,
       { var_lb := s.var_lb ++ [value]
         var_ub := s.var_ub ++ [value]
         var_type := s.var_type ++ [VarType.continuous]
         map_fixed_vars := (value, s.num_vars) :: s.map_fixed_vars }) := by
    simp [MakeFixedVar, hfresh, DoAddVar]
  refine ⟨hroute s ty, ?_, ?_⟩
  · rw [hroute s ty, hmk]
    simp [FlatCvtState.num_vars, List.getD_eq_getElem?_getD, List.getElem?_append_right]
  · rw [hroute s ty, hmk]
    rw [hroute _ ty']
    simp [MakeFixedVar, assocLookup]

/-- C8: `SolverApp::Run` returns 1 exactly on a failed
`Solver::ParseOptions`; any run that reaches the solve step returns 0
regardless of the status the solver reports (infeasible included), and
a run without a filename argument returns 0 as well. -/
theorem solverAppRun_exit_codes (inp : RunInput) :
    (inp.filename = none → solverAppRun inp = (0, false)) ∧
    (∀ f, inp.filename = some f → inp.parseOptionsOk = false →
      solverAppRun inp = (1, false)) ∧
    (∀ f, inp.filename = some f → inp.parseOptionsOk = true →
      solverAppRun inp = (0, true)) ∧
    ((solverAppRun inp).2 = true → (solverAppRun inp).1 = 0) ∧
    (∀ st : Int, solverAppRun { inp with solveStatus := st } = solverAppRun inp) := by
  rcases inp with ⟨fn, pok, st0⟩
  refine ⟨?_, ?_, ?_, ?_, ?_⟩ <;>
    cases fn <;> cases pok <;> simp [solverAppRun]

/-- Witness for C8 at concrete inputs: no filename gives 0, a failed
option parse gives 1, a reached solve step gives 0 whatever the
status. -/
theorem solverAppRun_exit_codes_witness :
    solverAppRun ⟨none, true, 0⟩ = (0, false) ∧
    solverAppRun ⟨some "model", false, 5⟩ = (1, false) ∧
    solverAppRun ⟨some "model", true, (-2)⟩ = (0, true) :=
  ⟨(solverAppRun_exit_codes ⟨none, true, 0⟩).1 rfl,
   (solverAppRun_exit_codes ⟨some "model", false, 5⟩).2.1 "model" rfl rfl,
   (solverAppRun_exit_codes ⟨some "model", true, (-2)⟩).2.2.1 "model" rfl rfl⟩

/-- C4: `AddConstraintAndTryNoteResultVariable` performs `MapInsert` on
the stored constraint: when the dedup map already contains a
structurally equal constraint it raises an internal error whose message
names the keeper's constraint type description; otherwise the
constraint is stored and becomes findable in the map. -/
theorem addConstraint_mapInsert_dedup {C : Type} [DecidableEq C] (getResVar : C → Int)
    (k : Keeper C) (vinfo : List (Option Nat)) (con : C) :
    (∀ j, assocLookup k.cmap con = some j →
      AddConstraintAndTryNote getResVar k vinfo con =
        Except.error ("Trying to MapInsert() duplicated constraint: " ++ k.descr) ∧
      k.descr.data <:+:
        ("Trying to MapInsert() duplicated constraint: " ++ k.descr).data) ∧
    (assocLookup k.cmap con = none →
      ∃ k2 vinfo1, AddConstraintAndTryNote getResVar k vinfo con =
          Except.ok (k2, vinfo1, k.cons.length) ∧
        assocLookup k2.cmap con = some k.cons.length ∧
        k2.cons = k.cons ++ [con]) := by
  constructor
  · intro j hj
    constructor
    · simp [AddConstraintAndTryNote, MapInsertImpl, hj]
    · exact ⟨("Trying to MapInsert() duplicated constraint: " : String).data, [],
        by simp⟩
  · intro hnone
    refine ⟨{ k with cons := k.cons ++ [con], cmap := (con, k.cons.length) :: k.cmap },
      ite (0 ≤ getResVar con)
        (AddInitExpressionL vinfo (getResVar con).toNat k.cons.length) vinfo,
      ?_, ?_, rfl⟩
    · simp [AddConstraintAndTryNote, MapInsertImpl, hnone]
    · simp [assocLookup]

/-- Witness for C4 with natural-number constraints: inserting a
duplicate of the mapped constraint `7` raises the description-bearing
error, and inserting fresh constraint `9` succeeds and lands in the
map. -/
theorem addConstraint_mapInsert_dedup_witness :
    (AddConstraintAndTryNote (fun _ => (-1 : Int))
        ⟨[7], [(7, 0)], "MaxConstraint"⟩ [] 7 =
      Except.error ("Trying to MapInsert() duplicated constraint: " ++ "MaxConstraint")) ∧
    (∃ k2 vinfo1, AddConstraintAndTryNote (fun _ => (-1 : Int))
          ⟨[7], [(7, 0)], "MaxConstraint"⟩ [] 9 =
        Except.ok (k2, vinfo1, 1) ∧
      assocLookup k2.cmap 9 = some 1 ∧
      k2.cons = [7] ++ [9]) :=
  ⟨((addConstraint_mapInsert_dedup (fun _ => (-1 : Int))
      ⟨[7], [(7, 0)], "MaxConstraint"⟩ [] 7).1 0 (by decide)).1,
   (addConstraint_mapInsert_dedup (fun _ => (-1 : Int))
      ⟨[7], [(7, 0)], "MaxConstraint"⟩ [] 9).2 (by decide)⟩

/-- C3: `NarrowVarBounds(v, lb, ub)` stores `max(old lb, lb)` and
`min(old ub, ub)` — so the stored lower bound never decreases and the
stored upper bound never increases — and the infeasible-domain error
`"empty variable domain"` is raised if and only if the resulting bounds
satisfy `lb(v) > ub(v)`. -/
theorem narrowVarBounds_mono_infeas (s : FlatCvtState) (v : Nat) (lb ub : Val)
    (hlb : v < s.var_lb.length) (hub : v < s.var_ub.length) :
    (NarrowVarBounds s v lb ub).1.lb v = max (s.lb v) lb ∧
    (NarrowVarBounds s v lb ub).1.ub v = min (s.ub v) ub ∧
    s.lb v ≤ (NarrowVarBounds s v lb ub).1.lb v ∧
    (NarrowVarBounds s v lb ub).1.ub v ≤ s.ub v ∧
    ((NarrowVarBounds s v lb ub).2 = some "empty variable domain" ↔
      (NarrowVarBounds s v lb ub).1.lb v > (NarrowVarBounds s v lb ub).1.ub v) := by
  have hl : ((s.set_lb v (max (s.lb v) lb)).set_ub v (min (s.ub v) ub)).lb v
      = max (s.lb v) lb := by
    simp [FlatCvtState.set_lb, FlatCvtState.set_ub, FlatCvtState.lb,
      List.getD_eq_getElem?_getD, List.getElem?_set_self, hlb]
  have hu : ((s.set_lb v (max (s.lb v) lb)).set_ub v (min (s.ub v) ub)).ub v
      = min (s.ub v) ub := by
    simp [FlatCvtState.set_lb, FlatCvtState.set_ub, FlatCvtState.ub,
      List.getD_eq_getElem?_getD, List.getElem?_set_self, hub]
  have heq : NarrowVarBounds s v lb ub =
      (if max (s.lb v) lb > min (s.ub v) ub
       then ((s.set_lb v (max (s.lb v) lb)).set_ub v (min (s.ub v) ub),
             some "empty variable domain")
       else ((s.set_lb v (max (s.lb v) lb)).set_ub v (min (s.ub v) ub), none)) := by
    show (if ((s.set_lb v (max (s.lb v) lb)).set_ub v (min (s.ub v) ub)).lb v >
            ((s.set_lb v (max (s.lb v) lb)).set_ub v (min (s.ub v) ub)).ub v
          then ((s.set_lb v (max (s.lb v) lb)).set_ub v (min (s.ub v) ub),
                some "empty variable domain")
          else ((s.set_lb v (max (s.lb v) lb)).set_ub v (min (s.ub v) ub), none)) = _
    rw [hl, hu]
  by_cases hc : max (s.lb v) lb > min (s.ub v) ub
  · rw [heq, if_pos hc]
    refine ⟨hl, hu, ?_, ?_, ?_⟩
    · rw [show ((s.set_lb v (max (s.lb v) lb)).set_ub v (min (s.ub v) ub),
          some "empty variable domain").1.lb v = max (s.lb v) lb from hl]
      exact le_max_left _ _
    · rw [show ((s.set_lb v (max (s.lb v) lb)).set_ub v (min (s.ub v) ub),
          some "empty variable domain").1.ub v = min (s.ub v) ub from hu]
      exact min_le_left _ _
    · simp [hl, hu, hc]
  · rw [heq, if_neg hc]
    refine ⟨hl, hu, ?_, ?_, ?_⟩
    · rw [show ((s.set_lb v (max (s.lb v) lb)).set_ub v (min (s.ub v) ub),
          (none : Option String)).1.lb v = max (s.lb v) lb from hl]
      exact le_max_left _ _
    · rw [show ((s.set_lb v (max (s.lb v) lb)).set_ub v (min (s.ub v) ub),
          (none : Option String)).1.ub v = min (s.ub v) ub from hu]
      exact min_le_left _ _
    · simp [hl, hu, hc]

/-- Witness for C3 at a concrete state: one variable with bounds
`[0, 5]`, narrowed to `[2, 3]` — no error, monotone update. -/
theorem narrowVarBounds_mono_infeas_witness :
    (0 : Nat) < 1 ∧
    ((NarrowVarBounds ⟨[0], [5], [VarType.continuous], []⟩ 0 2 3).1.lb 0 =
        max ((⟨[0], [5], [VarType.continuous], []⟩ : FlatCvtState).lb 0) 2 ∧
      (NarrowVarBounds ⟨[0], [5], [VarType.continuous], []⟩ 0 2 3).1.ub 0 =
        min ((⟨[0], [5], [VarType.continuous], []⟩ : FlatCvtState).ub 0) 3 ∧
      (⟨[0], [5], [VarType.continuous], []⟩ : FlatCvtState).lb 0 ≤
        (NarrowVarBounds ⟨[0], [5], [VarType.continuous], []⟩ 0 2 3).1.lb 0 ∧
      (NarrowVarBounds ⟨[0], [5], [VarType.continuous], []⟩ 0 2 3).1.ub 0 ≤
        (⟨[0], [5], [VarType.continuous], []⟩ : FlatCvtState).ub 0 ∧
      ((NarrowVarBounds ⟨[0], [5], [VarType.continuous], []⟩ 0 2 3).2 =
          some "empty variable domain" ↔
        (NarrowVarBounds ⟨[0], [5], [VarType.continuous], []⟩ 0 2 3).1.lb 0 >
          (NarrowVarBounds ⟨[0], [5], [VarType.continuous], []⟩ 0 2 3).1.ub 0)) :=
  ⟨by decide,
   narrowVarBounds_mono_infeas ⟨[0], [5], [VarType.continuous], []⟩ 0 2 3
     (by decide) (by decide)⟩

/-- Witness for C10 at the empty state: adding value 3 with requested
integer type yields the cached continuous fixed variable, and a later
equal-bounds request with another type returns the same variable and
state. -/
theorem addVar_equal_bounds_ignores_type_witness :
    assocLookup (⟨[], [], [], []⟩ : FlatCvtState).map_fixed_vars 3 = none ∧
    (AddVar ⟨[], [], [], []⟩ 3 3 VarType.integer = MakeFixedVar ⟨[], [], [], []⟩ 3 ∧
      (AddVar ⟨[], [], [], []⟩ 3 3 VarType.integer).2.var_type.getD
          (AddVar ⟨[], [], [], []⟩ 3 3 VarType.integer).1 VarType.integer
        = VarType.continuous ∧
      AddVar (AddVar ⟨[], [], [], []⟩ 3 3 VarType.integer).2 3 3 VarType.continuous =
        ((AddVar ⟨[], [], [], []⟩ 3 3 VarType.integer).1,
         (AddVar ⟨[], [], [], []⟩ 3 3 VarType.integer).2)) :=
  ⟨by decide,
   addVar_equal_bounds_ignores_type ⟨[], [], [], []⟩ 3 VarType.integer
     VarType.continuous (by decide)⟩

/-- C6: `Convert2Var` on an affine or quadratic expression returns the
existing variable when the expression is a single variable, the
canonical fixed variable when it is constant, and otherwise wraps the
expression in a `LinearFunctionalConstraint` (also when a quadratic
expression has an empty quadratic part) or a
`QuadraticFunctionalConstraint` handed to `AssignResultVar2Args`. -/
theorem convert2Var_case_analysis (ea : AffineExpr) (q : QuadraticExpr) :
    convert2VarAffine ea = convert2VarAffineSpec ea ∧
    convert2VarQuad q = convert2VarQuadSpec q := by
  have haff : ∀ e : AffineExpr, convert2VarAffine e = convert2VarAffineSpec e := by
    intro e
    rcases e with ⟨ts, k⟩
    match ts with
    | [] => rfl
    | [(c, v)] =>
        by_cases h : c = 1 ∧ k = 0 <;>
          simp [convert2VarAffine, convert2VarAffineSpec, AffineExpr.is_variable,
            AffineExpr.is_constant, AffineExpr.constant_term,
            AffineExpr.get_representing_variable, h]
    | (c1, v1) :: (c2, v2) :: rest =>
        simp [convert2VarAffine, convert2VarAffineSpec, AffineExpr.is_variable,
          AffineExpr.is_constant]
  refine ⟨haff ea, ?_⟩
  rcases q with ⟨aff, qt⟩
  match qt with
  | [] =>
      have hq : convert2VarQuad ⟨aff, []⟩ = convert2VarAffine aff := by
        simp [convert2VarQuad, convert2VarAffine, QuadraticExpr.is_variable,
          QuadraticExpr.is_constant, QuadraticExpr.is_affine,
          QuadraticExpr.constant_term, QuadraticExpr.get_representing_variable,
          MoveOutAffineExpr]
      rw [hq, haff aff]
      rfl
  | p :: rest =>
      simp [convert2VarQuad, convert2VarQuadSpec, QuadraticExpr.is_variable,
        QuadraticExpr.is_constant, QuadraticExpr.is_affine]

/-- Helper: a successful `std::map` insertion permutes to consing the
new pair onto the old map. -/
theorem mapInsertSorted_perm (k : Val) (x : Nat) :
    ∀ (m m' : List (Val × Nat)), mapInsertSorted k x m = some m' →
      List.Perm m' ((k, x) :: m) := by
  intro m
  induction m with
  | nil =>
      intro m' h
      simp [mapInsertSorted] at h
      subst h
      exact List.Perm.refl _
  | cons p rest ih =>
      intro m' h
      rcases p with ⟨k0, x0⟩
      rw [mapInsertSorted] at h
      by_cases h1 : k < k0
      · rw [if_pos h1] at h
        cases h
        exact List.Perm.refl _
      · rw [if_neg h1] at h
        by_cases h2 : k0 < k
        · rw [if_pos h2] at h
          rcases Option.map_eq_some'.mp h with ⟨r, hr, hm'⟩
          subst hm'
          exact ((ih r hr).cons _).trans (List.Perm.swap (k, x) (k0, x0) rest)
        · rw [if_neg h2] at h
          exact Option.noConfusion h

/-- Helper: a successful `std::map` insertion into a strictly key-sorted
list stays strictly key-sorted. -/
theorem mapInsertSorted_pairwise (k : Val) (x : Nat) :
    ∀ (m m' : List (Val × Nat)),
      List.Pairwise (fun a b => a.1 < b.1) m →
      mapInsertSorted k x m = some m' →
      List.Pairwise (fun a b => a.1 < b.1) m' := by
  intro m
  induction m with
  | nil =>
      intro m' _ h
      simp [mapInsertSorted] at h
      subst h
      simp
  | cons p rest ih =>
      intro m' hp h
      rcases p with ⟨k0, x0⟩
      rw [mapInsertSorted] at h
      rcases List.pairwise_cons.mp hp with ⟨hhead, htail⟩
      by_cases h1 : k < k0
      · rw [if_pos h1] at h
        cases h
        refine List.pairwise_cons.mpr ⟨?_, hp⟩
        intro b hb
        rcases List.mem_cons.mp hb with rfl | hb2
        · exact h1
        · exact lt_trans h1 (hhead b hb2)
      · rw [if_neg h1] at h
        by_cases h2 : k0 < k
        · rw [if_pos h2] at h
          rcases Option.map_eq_some'.mp h with ⟨r, hr, hm'⟩
          subst hm'
          refine List.pairwise_cons.mpr ⟨?_, ih r htail hr⟩
          intro b hb
          have hb' : b ∈ (k, x) :: rest :=
            (mapInsertSorted_perm k x rest r hr).mem_iff.mp hb
          rcases List.mem_cons.mp hb' with rfl | hb2
          · exact h2
          · exact hhead b hb2
        · rw [if_neg h2] at h
          exact Option.noConfusion h

/-- Helper: a failing `std::map` insertion means the key was already
present. -/
theorem mapInsertSorted_eq_none (k : Val) (x : Nat) :
    ∀ (m : List (Val × Nat)), mapInsertSorted k x m = none →
      k ∈ m.map Prod.fst := by
  intro m
  induction m with
  | nil => intro h; simp [mapInsertSorted] at h
  | cons p rest ih =>
      intro h
      rcases p with ⟨k0, x0⟩
      rw [mapInsertSorted] at h
      by_cases h1 : k < k0
      · rw [if_pos h1] at h
        exact Option.noConfusion h
      · rw [if_neg h1] at h
        by_cases h2 : k0 < k
        · rw [if_pos h2] at h
          rcases Option.map_eq_none'.mp h with hnone
          exact List.mem_cons.mpr (Or.inr (ih hnone))
        · have hk0 : k = k0 := le_antisymm (not_lt.mp h2) (not_lt.mp h1)
          simp [hk0]

/-- Helper: a successful run of all insertions yields a strictly
key-sorted map holding exactly the inserted pairs and the initial
map. -/
theorem sosInsertAll_some (l : List (Val × Nat)) :
    ∀ (m m' : List (Val × Nat)),
      List.Pairwise (fun a b => a.1 < b.1) m →
      sosInsertAll l m = some m' →
      List.Pairwise (fun a b => a.1 < b.1) m' ∧ List.Perm m' (l ++ m) := by
  induction l with
  | nil =>
      intro m m' hp h
      rw [sosInsertAll] at h
      cases h
      exact ⟨hp, by simp⟩
  | cons p rest ih =>
      intro m m' hp h
      rw [sosInsertAll] at h
      cases hins : mapInsertSorted p.1 p.2 m with
      | none =>
          rw [hins] at h
          exact Option.noConfusion h
      | some m1 =>
          rw [hins] at h
          have hm1p := mapInsertSorted_pairwise p.1 p.2 m m1 hp hins
          have hm1perm := mapInsertSorted_perm p.1 p.2 m m1 hins
          obtain ⟨hp', hperm'⟩ := ih m1 m' hm1p h
          refine ⟨hp', ?_⟩
          exact hperm'.trans
            ((List.Perm.append_left rest hm1perm).trans List.perm_middle)

/-- Helper: the insertions all succeed exactly when the inserted keys
together with the initial keys are pairwise distinct. -/
theorem sosInsertAll_isSome_iff (l : List (Val × Nat)) :
    ∀ (m : List (Val × Nat)), List.Pairwise (fun a b => a.1 < b.1) m →
      ((sosInsertAll l m).isSome = true ↔
        (l.map Prod.fst ++ m.map Prod.fst).Nodup) := by
  induction l with
  | nil =>
      intro m hp
      rw [sosInsertAll]
      simp only [Option.isSome_some, List.map_nil, List.nil_append]
      constructor
      · intro _
        exact (List.pairwise_map).mpr (hp.imp (fun hab => ne_of_lt hab))
      · intro _
        trivial
  | cons p rest ih =>
      intro m hp
      rw [sosInsertAll]
      cases hins : mapInsertSorted p.1 p.2 m with
      | none =>
          have hmem : p.1 ∈ m.map Prod.fst := mapInsertSorted_eq_none p.1 p.2 m hins
          simp only [Option.isSome_none]
          constructor
          · intro h
            exact absurd h (by simp)
          · intro hnd
            exfalso
            rw [List.map_cons, List.cons_append, List.nodup_cons] at hnd
            exact hnd.1 (List.mem_append.mpr (Or.inr hmem))
      | some m1 =>
          have hm1p := mapInsertSorted_pairwise p.1 p.2 m m1 hp hins
          have hm1perm := mapInsertSorted_perm p.1 p.2 m m1 hins
          rw [ih m1 hm1p]
          have hkeys : List.Perm (m1.map Prod.fst) (p.1 :: m.map Prod.fst) := by
            simpa using hm1perm.map Prod.fst
          have hfull : List.Perm (rest.map Prod.fst ++ m1.map Prod.fst)
              (p.1 :: (rest.map Prod.fst ++ m.map Prod.fst)) :=
            (List.Perm.append_left _ hkeys).trans List.perm_middle
          rw [hfull.nodup_iff]
          simp

/-- C9: the `SOS_1or2_Constraint` constructor sorts the stored
variables and weights by strictly increasing weight — construction
succeeds exactly when all input weights are distinct (otherwise the
`MP_ASSERT_ALWAYS` aborts), `get_weights()` is strictly increasing, and
the output (weight, variable) pairs are exactly the input pairs. -/
theorem sos_constructor_sorts_by_weights (v : List Nat) (w : List Val)
    (hlen : v.length = w.length) :
    ((sosSort v w).isSome = true ↔ w.Nodup) ∧
    (∀ vs ws, sosSort v w = some (vs, ws) →
      List.Pairwise (fun a b => a < b) ws ∧
      List.Perm (ws.zip vs) (w.zip v)) := by
  have hkeysL : ((w.zip v).reverse).map Prod.fst = w.reverse := by
    rw [List.map_reverse, List.map_fst_zip _ _ (le_of_eq hlen.symm)]
  constructor
  · have hiff := sosInsertAll_isSome_iff ((w.zip v).reverse) [] (by simp)
    have heq : (sosSort v w).isSome = (sosInsertAll ((w.zip v).reverse) []).isSome := by
      cases hacc : sosInsertAll ((w.zip v).reverse) [] <;> simp [sosSort, hacc]
    rw [heq, hiff, hkeysL]
    simp [List.nodup_reverse]
  · intro vs ws h
    cases hacc : sosInsertAll ((w.zip v).reverse) [] with
    | none => simp [sosSort, hacc] at h
    | some m =>
        have h' : m.map Prod.snd = vs ∧ m.map Prod.fst = ws := by
          simp [sosSort, hacc] at h
          exact h
        obtain ⟨hvs, hws⟩ := h'
        obtain ⟨hp, hperm⟩ := sosInsertAll_some _ [] m (by simp) hacc
        subst hvs
        subst hws
        constructor
        · exact (List.pairwise_map).mpr hp
        · rw [show (m.map Prod.fst).zip (m.map Prod.snd) = m from
            Eq.symm (List.zip_of_prod rfl rfl)]
          rw [List.append_nil] at hperm
          exact hperm.trans (List.reverse_perm _)

/-- Witness for C9: variables `[10, 20]` with weights `[2, 1]` — the
sort succeeds (distinct weights), yields strictly increasing weights
and permuted pairs. -/
theorem sos_constructor_sorts_by_weights_witness :
    ([10, 20] : List Nat).length = ([2, 1] : List Val).length ∧
    (((sosSort [10, 20] [2, 1]).isSome = true ↔ ([2, 1] : List Val).Nodup) ∧
      (∀ vs ws, sosSort [10, 20] [2, 1] = some (vs, ws) →
        List.Pairwise (fun a b => a < b) ws ∧
        List.Perm (ws.zip vs) (([2, 1] : List Val).zip [10, 20]))) :=
  ⟨rfl, sos_constructor_sorts_by_weights [10, 20] [2, 1] rfl⟩

/-- Helper for the conversion loop: when every still-rejected
constraint has rank below the pass count, the loop ends with only
accepted constraints. -/
theorem convertLoop_all_accepted (acc : Nat → Bool) (cvt : Nat → List Nat)
    (rank : Nat → Nat)
    (hcvt : ∀ c, acc c = false → ∀ d ∈ cvt c, acc d = true ∨ rank d < rank c) :
    ∀ (n : Nat) (l : List Nat), (∀ c ∈ l, acc c = false → rank c < n) →
      ∀ c ∈ convertLoop acc cvt n l, acc c = true := by
  intro n
  induction n with
  | zero =>
      intro l hl c hc
      cases hacc : acc c with
      | true => rfl
      | false => exact absurd (hl c hc hacc) (Nat.not_lt_zero _)
  | succ n ih =>
      intro l hl c hc
      refine ih (convertRound acc cvt l) ?_ c hc
      intro d hd hdacc
      rw [convertRound, List.mem_flatMap] at hd
      obtain ⟨c0, hc0, hd0⟩ := hd
      cases hacc0 : acc c0 with
      | true =>
          rw [if_pos hacc0] at hd0
          rcases List.mem_singleton.mp hd0 with rfl
          exact absurd hacc0 (by simp [hdacc])
      | false =>
          rw [if_neg (by simp [hacc0])] at hd0
          rcases hcvt c0 hacc0 d hd0 with hda | hdr
          · exact absurd hda (by simp [hdacc])
          · exact Nat.lt_of_lt_of_le hdr (Nat.lt_succ_iff.mp (hl c0 hc0 hacc0))

/-- C1: after `FinishModelInput` has run the conversion loop, every
keeper of a constraint type that the ModelAPI reports as `NotAccepted`
is empty — each item originally or intermediately stored there has been
rewritten into accepted types.  (Modelled from the spec: every rewrite
maps a rejected type to strictly more-accepted types, witnessed by the
rank bound.) -/
theorem rejected_keepers_empty_after_conversion (acc : Nat → Bool)
    (cvt : Nat → List Nat) (rank : Nat → Nat)
    (hcvt : ∀ c, acc c = false → ∀ d ∈ cvt c, acc d = true ∨ rank d < rank c)
    (n : Nat) (l : List Nat) (hl : ∀ c ∈ l, acc c = false → rank c < n)
    (t : Nat) (ht : acc t = false) :
    keeperContent t (convertLoop acc cvt n l) = [] := by
  rw [keeperContent, List.filter_eq_nil_iff]
  intro c hc hct
  have hacc : acc c = true := convertLoop_all_accepted acc cvt rank hcvt n l hl c hc
  have hceq : c = t := by simpa using hct
  rw [hceq] at hacc
  rw [hacc] at ht
  exact Bool.noConfusion ht

/-- Witness for C1: only type 0 is accepted, every rewrite emits the
accepted type 0, ranks are the type tags themselves; after 4 passes the
keeper of the rejected type 3 is empty. -/
theorem rejected_keepers_empty_after_conversion_witness :
    (∀ c, decide (c = 0) = false →
      ∀ d ∈ ([0] : List Nat), decide (d = 0) = true ∨ d < c) ∧
    (∀ c ∈ ([3, 0, 2] : List Nat), decide (c = 0) = false → c < 4) ∧
    keeperContent 3
      (convertLoop (fun c => decide (c = 0)) (fun _ => [0]) 4 [3, 0, 2]) = [] := by
  refine ⟨?_, ?_, ?_⟩
  · intro c _ d hd
    rcases List.mem_singleton.mp hd with rfl
    exact Or.inl rfl
  · decide
  · exact rejected_keepers_empty_after_conversion (fun c => decide (c = 0))
      (fun _ => [0]) (fun c => c)
      (by intro c _ d hd; rcases List.mem_singleton.mp hd with rfl; exact Or.inl rfl)
      4 [3, 0, 2] (by decide) 3 (by decide)

end MpVerify
